import Mathlib

/-!
Verification of the warp-content-processor excavation core.

This file is a shallow embedding, in Lean 4, of the parts of the
warp-content-processor repository that the verified properties below are
about:

* `src/warp_content_processor/excavation/artifacts.py`
  (data model, `SchemaArtifact.quality_score`, `SchemaArtifact.is_high_quality`,
  `ExcavationResult.high_quality_artifacts`);
* `src/warp_content_processor/excavation/island_detector.py`
  (`SchemaIslandDetector._find_yaml_islands`, `_clean_content` newline
  collapsing, `_remove_overlapping_islands`, `_islands_overlap`);
* `src/warp_content_processor/excavation/archaeologist.py`
  (`ContentArchaeologist.excavate`, `_extract_artifact_from_island`,
  `_calculate_extraction_confidence`, `_map_content_type`);
* `src/warp_content_processor/parsers/base.py` (`ParseResult`,
  `ErrorTolerantParser.parse`);
* `src/warp_content_processor/parsers/yaml_strategies.py`
  (`PartialYAMLStrategy.attempt_parse`, `create_yaml_parser` order);
* `src/warp_content_processor/parsers/common_patterns.py`
  (`CommonPatterns.extract_key_value_pairs`).

Modelling conventions:

* Python `float` arithmetic on the small decimal literals used by the
  scoring code is modelled by exact rationals (`ℚ`); decimal literals are
  written as their exact fractions (`0.95` as `95/100`, ...).
* Python exceptions are modelled by `Except PyExc`; a `try/except` block
  becomes a `match` on the `Except` value.  `PyExc.security` records whether
  the exception is a `SecurityValidationError` (the one exception class the
  orchestrator catches selectively).
* Python character classes (`\w`, `\s`) are modelled on their ASCII
  fragment; every concrete input used in a counterexample or witness is
  ASCII, so no behaviour relevant to a settled claim depends on this.
* Components of the code that are regex- or external-library-driven
  (`yaml.safe_load`, the content-type classifier, the raw island scans)
  enter the model as explicit function parameters; everything the claims
  quantify over is concrete.
-/

set_option maxHeartbeats 1600000

namespace WarpContent

/-! ### Python string primitives -/

/-- ASCII fragment of Python str whitespace (as stripped by `str.strip()`):
space, tab, newline, carriage return, vertical tab, form feed. -/
def isPySpace (c : Char) : Bool :=
  c = ' ' || c = '\t' || c = '\n' || c = '\r' || c.toNat = 11 || c.toNat = 12

/-- Python `s.strip()` (ASCII whitespace). -/
def pyStrip (s : String) : String :=
  String.mk (((s.data.dropWhile isPySpace).reverse.dropWhile isPySpace).reverse)

/-- Python `s.strip(chars)`: remove the given characters from both ends. -/
def pyStripChars (s : String) (chars : List Char) : String :=
  String.mk (((s.data.dropWhile (chars.contains ·)).reverse.dropWhile
    (chars.contains ·)).reverse)

/-- Python truthiness of a string combined with `strip`:
`not content or not content.strip()`. -/
def isBlank (s : String) : Bool :=
  s = "" || pyStrip s = ""

/-- Substring test on character lists (used to model `pattern in content`
style denylist checks). -/
def listContainsSub (hay needle : List Char) : Bool :=
  match hay with
  | [] => needle = []
  | _ :: rest => needle.isPrefixOf hay || listContainsSub rest needle

/-- `needle` occurs as a contiguous substring of `hay`. -/
def containsSub (hay needle : String) : Bool :=
  listContainsSub hay.data needle.data

/-- Number of occurrences of a character in a string (Python `s.count(c)`). -/
def countChar (s : String) (c : Char) : ℕ :=
  s.data.countP (· = c)

/-- A Python exception value.  `security = true` marks a
`SecurityValidationError`; the orchestrator's guard phase catches exactly
those, while its island-level handlers catch every exception. -/
structure PyExc where
  security : Bool
  msg : String
deriving DecidableEq

/-! ### Data model (`excavation/artifacts.py`) -/

/-- `ContentType` enum (artifacts.py lines 13-20). -/
inductive ContentType where
  | yaml
  | json
  | markdown
  | plainText
  | unknown
deriving DecidableEq

/-- `ExtractionConfidence` enum (artifacts.py lines 23-29). -/
inductive ExtractionConfidence where
  | high
  | medium
  | low
  | suspect
deriving DecidableEq

/-- `ContaminationType` enum (artifacts.py lines 32-40). -/
inductive ContaminationType where
  | binaryData
  | logPrefixes
  | codeFragments
  | randomText
  | encodingIssues
  | malformedStructure
deriving DecidableEq

/-- `ExtractionContext` dataclass (artifacts.py lines 43-52). -/
structure ExtractionContext where
  source_type : String
  start_offset : ℕ
  end_offset : ℕ
  contamination_types : Finset ContaminationType
  extraction_method : String
  original_surrounding : Option String := none
deriving DecidableEq

/-- `SchemaArtifact` dataclass (artifacts.py lines 55-72); `parsed_data` is
`Any` in Python, modelled by a type parameter.  `validation_errors` holds
`Optional[str]` entries because the archaeologist stores
`parse_result.error_message` (an `Optional[str]`) in it. -/
structure SchemaArtifact (α : Type) where
  content_type : ContentType
  raw_content : String
  cleaned_content : String
  parsed_data : Option α
  confidence : ExtractionConfidence
  is_valid : Bool
  extraction_context : ExtractionContext
  validation_errors : List (Option String)
  cleaning_warnings : List String
deriving DecidableEq

/-- `ExcavationResult` dataclass (artifacts.py lines 130-137);
`extraction_stats` is a Python dict (insertion-ordered), modelled as an
association list. -/
structure ExcavationResult (α : Type) where
  artifacts : List (SchemaArtifact α)
  total_content_size : ℕ
  processing_time_ms : ℕ
  extraction_stats : List (String × ℕ)
deriving DecidableEq

/-- The `base_scores` table of `SchemaArtifact.quality_score`
(artifacts.py lines 77-82). -/
def baseScore : ExtractionConfidence → ℚ
  | .high => 95 / 100
  | .medium => 80 / 100
  | .low => 65 / 100
  | .suspect => 35 / 100

/-- `SchemaArtifact.quality_score` (artifacts.py lines 74-94) as a function
of the three fields it reads: base score by confidence, halved when not
valid, minus `0.05` per contamination type, then `max(0.0, ...)` and
`min(1.0, ...)` exactly as in the code. -/
def qualityScoreFn (conf : ExtractionConfidence) (is_valid : Bool)
    (ncontam : ℕ) : ℚ :=
  let score := baseScore conf
  let score := if is_valid then score else score * (5 / 10)
  let score := max 0 (score - (ncontam : ℚ) * (5 / 100))
  min 1 score

/-- `SchemaArtifact.quality_score` property. -/
def SchemaArtifact.qualityScore {α : Type} (a : SchemaArtifact α) : ℚ :=
  qualityScoreFn a.confidence a.is_valid a.extraction_context.contamination_types.card

/-- `SchemaArtifact.is_high_quality` (artifacts.py lines 96-104):
confidence in `[HIGH, MEDIUM]`, valid, no validation errors, and
`quality_score >= 0.7`. -/
def SchemaArtifact.isHighQuality {α : Type} (a : SchemaArtifact α) : Bool :=
  decide (a.confidence = .high ∨ a.confidence = .medium)
    && a.is_valid
    && decide (a.validation_errors = [])
    && decide ((7 : ℚ) / 10 ≤ a.qualityScore)

/-- `ExcavationResult.high_quality_artifacts` (artifacts.py lines 139-142). -/
def ExcavationResult.highQualityArtifacts {α : Type} (r : ExcavationResult α) :
    List (SchemaArtifact α) :=
  r.artifacts.filter (fun a => a.isHighQuality)

/-- `ContentArchaeologist._calculate_extraction_confidence`
(archaeologist.py lines 211-242): fuse island quality with detection
confidence, penalise `0.1` per contamination type with a floor of `0`, then
map through the fixed thresholds. -/
def calcExtractionConfidence (quality detection : ℚ) (ncontam : ℕ) :
    ExtractionConfidence :=
  let combined := (quality + detection) / 2
  let combined := max 0 (combined - (ncontam : ℚ) * (1 / 10))
  if 85 / 100 ≤ combined then .high
  else if 65 / 100 ≤ combined then .medium
  else if 35 / 100 ≤ combined then .low
  else .suspect

/-! ### Cascading parser (`parsers/base.py`) -/

/-- `ParseResult` dataclass (base.py lines 16-39). -/
structure ParseResult (α : Type) where
  success : Bool
  data : Option α := none
  error_message : Option String := none
  original_content : Option String := none
deriving DecidableEq

/-- `ParseResult.success_result` (base.py lines 25-28). -/
def ParseResult.successResult {α : Type} (data : α) (original : String) :
    ParseResult α :=
  { success := true, data := some data, original_content := some original }

/-- `ParseResult.failure_result` (base.py lines 30-39). -/
def ParseResult.failureResult {α : Type} (msg : String) (original : String) :
    ParseResult α :=
  { success := false, error_message := some msg, original_content := some original }

/-- A parse strategy attempt: `ParsingStrategy.attempt_parse` may return a
`ParseResult` or raise any exception. -/
def Strategy (α : Type) : Type := String → Except PyExc (ParseResult α)

/-- How Python renders an `Optional[str]` inside an f-string: `None` for the
absent value. -/
def optStr : Option String → String
  | none => "None"
  | some s => s

/-- The strategy loop of `ErrorTolerantParser.parse` (base.py lines 114-140):
try strategies in order carrying the last error (`last_error` starts as
`None`); an exception becomes that strategy's failure; a success result is
returned as-is; exhaustion yields the aggregated failure message. -/
def parseLoop {α : Type} (content : String) :
    List (Strategy α) → Option String → ParseResult α
  | [], lastError =>
      .failureResult ("All parsing strategies failed. Last error: " ++ optStr lastError)
        content
  | s :: rest, _ =>
      match s content with
      | .ok r => if r.success then r else parseLoop content rest r.error_message
      | .error e => parseLoop content rest (some e.msg)

/-- `ErrorTolerantParser.parse` (base.py lines 97-140).  The running
statistics counters (`self.stats`) do not influence the returned value and
are omitted. -/
def errorTolerantParse {α : Type} (strategies : List (Strategy α))
    (content : String) : ParseResult α :=
  if isBlank content then
    .failureResult "Empty or whitespace-only content" content
  else
    parseLoop content strategies none

/-- `create_yaml_parser` (yaml_strategies.py lines 353-370): the fixed
strategy order Standard, Cleaned, Mangled, Reconstructed, Partial.  The five
strategies themselves wrap `yaml.safe_load` and enter the model as
parameters. -/
def createYamlChain {α : Type}
    (standard cleaned mangled reconstructed partialStrat : Strategy α) :
    List (Strategy α) :=
  [standard, cleaned, mangled, reconstructed, partialStrat]

/-- The observable outcome of one strategy on one input: it fails by
returning an unsuccessful result or by raising. -/
def strategyFails {α : Type} (s : Strategy α) (content : String) : Prop :=
  (∃ r, s content = .ok r ∧ r.success = false) ∨ (∃ e, s content = .error e)

/-- The error string a failing strategy contributes to `last_error`:
`result.error_message` for a returned failure (rendered as Python renders
`None` when absent), `str(e)` for an exception. -/
def strategyErrStr {α : Type} (s : Strategy α) (content : String) : String :=
  match s content with
  | .ok r => optStr r.error_message
  | .error e => e.msg

/-! ### Partial YAML strategy (`parsers/yaml_strategies.py` lines 295-350)
and `CommonPatterns.extract_key_value_pairs` (common_patterns.py
lines 147-175) -/

/-- Python `str.splitlines()` on the ASCII line boundaries that occur in the
modelled inputs: `\n`, `\r\n` and `\r`; the trailing empty line is not
produced. -/
def pySplitlinesGo : List Char → List Char → List String
  | acc, [] => if acc = [] then [] else [String.mk acc.reverse]
  | acc, '\n' :: rest => String.mk acc.reverse :: pySplitlinesGo [] rest
  | acc, '\r' :: '\n' :: rest => String.mk acc.reverse :: pySplitlinesGo [] rest
  | acc, '\r' :: rest => String.mk acc.reverse :: pySplitlinesGo [] rest
  | acc, c :: rest => pySplitlinesGo (c :: acc) rest

/-- Python `content.splitlines()`. -/
def pySplitlines (s : String) : List String :=
  pySplitlinesGo [] s.data

/-- Python `line.split(":", 1)`: split on the first colon, if any. -/
def splitOnceColon (l : List Char) : Option (List Char × List Char) :=
  match l with
  | [] => none
  | ':' :: rest => some ([], rest)
  | c :: rest =>
      match splitOnceColon rest with
      | none => none
      | some (k, v) => some (c :: k, v)

/-- `CommonPatterns.extract_key_value_pairs` (common_patterns.py
lines 147-175): per stripped line, skip blanks and `#` comments, split on
the first colon, strip both parts, and keep only pairs whose key and value
are both non-empty. -/
def extractKeyValuePairs (content : String) : List (String × String) :=
  (pySplitlines content).foldr
    (fun line acc =>
      let line := pyStrip line
      -- `line.startswith("#")` on the stripped line: its first character
      -- is the comment sign.
      if line = "" || line.data.head? = some '#' then acc
      else
        match splitOnceColon line.data with
        | none => acc
        | some (k, v) =>
            let key := pyStrip (String.mk k)
            let value := pyStrip (String.mk v)
            if key = "" || value = "" then acc else (key, value) :: acc)
    []

/-- Outcome of `yaml.safe_load(value)` on one extracted value: a parsed
value, a `yaml.YAMLError`, or any other exception. -/
inductive LoadOutcome (α : Type) where
  | ok (a : α)
  | yamlErr (msg : String)
  | otherErr (msg : String)
deriving DecidableEq

/-- A value stored in the dict built by `PartialYAMLStrategy.attempt_parse`:
a parsed YAML value, a fallback string, or (under the synthetic
`_parsing_warnings` key) a list of warning strings. -/
inductive PVal (α : Type) where
  | parsed (a : α)
  | strv (s : String)
  | warns (ws : List String)
deriving DecidableEq

/-- Python dict assignment `d[k] = v` on an insertion-ordered association
list: overwrite in place if the key exists, else append. -/
def dictInsert {α : Type} (d : List (String × PVal α)) (k : String)
    (v : PVal α) : List (String × PVal α) :=
  match d with
  | [] => [(k, v)]
  | (k0, v0) :: rest =>
      if k0 = k then (k, v) :: rest else (k0, v0) :: dictInsert rest k v

/-- Python dict lookup `d.get(k)`. -/
def dictGet {α : Type} (d : List (String × PVal α)) (k : String) :
    Option (PVal α) :=
  match d with
  | [] => none
  | (k0, v0) :: rest => if k0 = k then some v0 else dictGet rest k

/-- The ASCII apostrophe, used in Python's warning message and in the
`value.strip("'\"")` fallback of the partial strategy. -/
def apos : Char := '\x27'

/-- The per-key warning of the partial strategy:
`Could not parse value for key '<key>', using as string`. -/
def partialWarn (key : String) : String :=
  "Could not parse value for key " ++ String.mk [apos] ++ key
    ++ String.mk [apos] ++ ", using as string"

/-- The other-exception warning of the partial strategy:
`Error processing key '<key>': <e>`. -/
def partialErrWarn (key msg : String) : String :=
  "Error processing key " ++ String.mk [apos] ++ key ++ String.mk [apos]
    ++ ": " ++ msg

/-- One iteration of the pair-processing loop of
`PartialYAMLStrategy.attempt_parse` (yaml_strategies.py lines 322-334):
a clean parse stores the parsed value; a `yaml.YAMLError` stores the
quote-stripped string and appends a warning; any other exception only
appends a warning. -/
def partialStep {α : Type} (load : String → LoadOutcome α)
    (st : List (String × PVal α) × List String) (p : String × String) :
    List (String × PVal α) × List String :=
  match load p.2 with
  | .ok a => (dictInsert st.1 p.1 (.parsed a), st.2)
  | .yamlErr _ =>
      (dictInsert st.1 p.1 (.strv (pyStripChars p.2 [apos, '"'])),
        st.2 ++ [partialWarn p.1])
  | .otherErr e => (st.1, st.2 ++ [partialErrWarn p.1 e])

/-- The dict and warning list built by the loop of
`PartialYAMLStrategy.attempt_parse`, folded over the pairs in order. -/
def partialFold {α : Type} (load : String → LoadOutcome α)
    (pairs : List (String × String)) :
    List (String × PVal α) × List String :=
  pairs.foldl (partialStep load) ([], [])

/-- `PartialYAMLStrategy.attempt_parse` (yaml_strategies.py lines 306-350),
parameterised by the `yaml.safe_load` outcome on each extracted value.  The
parsed data is the dict modelled as an insertion-ordered association list;
when any warnings were produced they are attached under the synthetic
`_parsing_warnings` key. -/
def partialAttemptParse {α : Type} (load : String → LoadOutcome α)
    (content : String) : ParseResult (List (String × PVal α)) :=
  if isBlank content then .failureResult "Empty content" content
  else
    let pairs := extractKeyValuePairs content
    if pairs = [] then .failureResult "No key-value pairs found" content
    else
      let st := partialFold load pairs
      if st.1.isEmpty then .failureResult "No valid key-value pairs extracted" content
      else
        let result :=
          if st.2.isEmpty then st.1
          else dictInsert st.1 "_parsing_warnings" (.warns st.2)
        .successResult result content

/-! ### Newline collapsing in `SchemaIslandDetector._clean_content`
(island_detector.py lines 344-348) -/

/-- A run of `n` newline characters. -/
def newlines (n : ℕ) : List Char := List.replicate n '\n'

/-- `re.sub(r"\n{4}", "\n\n\n", s)`: `re.sub` replaces non-overlapping
matches scanning left to right, so inside a maximal run of `n` newlines it
replaces `n / 4` disjoint groups of four newlines by three each and keeps
the remaining `n % 4`; characters outside newline runs are untouched.
Implemented by run counting, which realises exactly that semantics. -/
def sub4Go : ℕ → List Char → List Char
  | n, [] => newlines (3 * (n / 4) + n % 4)
  | n, '\n' :: rest => sub4Go (n + 1) rest
  | n, c :: rest => newlines (3 * (n / 4) + n % 4) ++ c :: sub4Go 0 rest

/-- `re.sub(r"\n{5,}", "\n\n", s)`: the greedy quantifier consumes each
maximal run of at least five newlines and replaces it by two; shorter runs
and other characters are untouched. -/
def sub5Go : ℕ → List Char → List Char
  | n, [] => if 5 ≤ n then newlines 2 else newlines n
  | n, '\n' :: rest => sub5Go (n + 1) rest
  | n, c :: rest => (if 5 ≤ n then newlines 2 else newlines n) ++ c :: sub5Go 0 rest

/-- The final whitespace step of `SchemaIslandDetector._clean_content`
(island_detector.py lines 344-348): first the `\n{4}` substitution, then the
`\n{5,}` substitution, in that order. -/
def collapseNewlines (s : String) : String :=
  String.mk (sub5Go 0 (sub4Go 0 s.data))

/-! ### Island detector (`excavation/island_detector.py`) -/

/-- `ContentIsland` dataclass (island_detector.py lines 19-36). -/
structure ContentIsland where
  content : String
  raw_content : String
  start_offset : ℕ
  end_offset : ℕ
  quality_score : ℚ
  source_type : String
  extraction_method : String
  contamination_types : Finset ContaminationType
  cleaning_warnings : List String
  surrounding_context : String
deriving DecidableEq

/-- `SchemaIslandDetector._islands_overlap` (island_detector.py
lines 409-414). -/
def islandsOverlap (i1 i2 : ContentIsland) : Bool :=
  !(decide (i1.end_offset ≤ i2.start_offset)
    || decide (i2.end_offset ≤ i1.start_offset))

/-- Stable insertion for `sorted(islands, key=quality_score, reverse=True)`:
an element keeps its position relative to equal-quality elements that came
before it. -/
def insertByQuality (i : ContentIsland) : List ContentIsland → List ContentIsland
  | [] => [i]
  | j :: rest =>
      if i.quality_score < j.quality_score then j :: insertByQuality i rest
      else i :: j :: rest

/-- Python's stable descending sort by `quality_score`. -/
def sortByQualityDesc : List ContentIsland → List ContentIsland
  | [] => []
  | i :: rest => insertByQuality i (sortByQualityDesc rest)

/-- The greedy filter of `_remove_overlapping_islands` (island_detector.py
lines 397-407): keep an island only if it overlaps none of the islands kept
so far. -/
def keepNonOverlapping :
    List ContentIsland → List ContentIsland → List ContentIsland
  | acc, [] => acc
  | acc, i :: rest =>
      if acc.any (fun s => islandsOverlap i s) then keepNonOverlapping acc rest
      else keepNonOverlapping (acc ++ [i]) rest

/-- `SchemaIslandDetector._remove_overlapping_islands` (island_detector.py
lines 387-407): sort by quality descending, then keep greedily. -/
def removeOverlappingIslands (islands : List ContentIsland) :
    List ContentIsland :=
  if islands.length ≤ 1 then islands
  else keepNonOverlapping [] (sortByQualityDesc islands)

/-- `SchemaIslandDetector.find_islands` (island_detector.py lines 80-115).
The two regex scans (`_find_yaml_islands` and `_find_json_islands`,
concatenated in that order) enter as the `scan` parameter; the overlap
removal and the final descending sort by quality are concrete. -/
def findIslands
    (scan : String → Option String → Except PyExc (List ContentIsland))
    (content : String) (hint : Option String) :
    Except PyExc (List ContentIsland) :=
  if pyStrip content = "" then .ok []
  else do
    let raw ← scan content hint
    pure (sortByQualityDesc (removeOverlappingIslands raw))

/-! ### Archaeologist (`excavation/archaeologist.py`) -/

/-- `ContentArchaeologist._map_content_type` (archaeologist.py
lines 244-254). -/
def mapContentType (s : String) : ContentType :=
  match s.toLower with
  | "yaml" => .yaml
  | "json" => .json
  | "markdown" => .markdown
  | "text" => .plainText
  | "workflow" => .yaml
  | "prompt" => .markdown
  | _ => .unknown

/-- The environment of one `ContentArchaeologist.excavate` call: the
configured size limit, the sanitizer, and the unembeddable collaborators
(regex island scans, the content-type detector, the cascading YAML parser),
each allowed to raise; `timeoutAt k` is the value of the cooperative check
`time.time() - start_time > extraction_timeout` at loop iteration `k`, and
`procTimeMs` the reported elapsed time. -/
structure ArchEnv (α : Type) where
  maxContentSize : ℕ
  sanitize : String → Except PyExc String
  islandScan : String → Option String → Except PyExc (List ContentIsland)
  detect : String → Except PyExc (String × ℚ)
  parseYaml : String → Except PyExc (ParseResult α)
  timeoutAt : ℕ → Bool
  procTimeMs : ℕ

/-- `ContentArchaeologist._extract_artifact_from_island` (archaeologist.py
lines 151-209): classify, fuse confidence, cascade-parse, and build the
artifact with the island's provenance copied into its extraction context.
The Python signature is `Optional[SchemaArtifact]` though the body always
returns an artifact; the `Option` is kept. -/
def extractArtifactFromIsland {α : Type} (env : ArchEnv α)
    (island : ContentIsland) : Except PyExc (Option (SchemaArtifact α)) := do
  let det ← env.detect island.content
  let contentType := mapContentType det.1
  let conf := calcExtractionConfidence island.quality_score det.2
    island.contamination_types.card
  let pr ← env.parseYaml island.content
  let ctx : ExtractionContext :=
    { source_type := island.source_type
      start_offset := island.start_offset
      end_offset := island.end_offset
      contamination_types := island.contamination_types
      extraction_method := island.extraction_method
      original_surrounding := some island.surrounding_context }
  pure (some
    { content_type := contentType
      raw_content := island.raw_content
      cleaned_content := island.content
      parsed_data := if pr.success then pr.data else none
      confidence := conf
      is_valid := pr.success
      extraction_context := ctx
      validation_errors := if pr.success then [] else [pr.error_message]
      cleaning_warnings := island.cleaning_warnings })

/-- `extraction_stats[method] = extraction_stats.get(method, 0) + 1` on the
insertion-ordered dict. -/
def bumpStat : List (String × ℕ) → String → List (String × ℕ)
  | [], m => [(m, 1)]
  | (k, v) :: rest, m =>
      if k = m then (k, v + 1) :: rest else (k, v) :: bumpStat rest m

/-- The island loop of `ContentArchaeologist.excavate` (archaeologist.py
lines 116-135): per iteration, a positive timeout check breaks out keeping
what was built; an exception from island extraction is caught and the
island skipped; otherwise the artifact is appended and its extraction
method's counter bumped.  (The instance-level running counters
`total_extractions`/`successful_extractions` do not influence the returned
result and are omitted.) -/
def extractLoop {α : Type} (env : ArchEnv α) :
    List ContentIsland → ℕ → List (SchemaArtifact α) → List (String × ℕ) →
    List (SchemaArtifact α) × List (String × ℕ)
  | [], _, arts, stats => (arts, stats)
  | island :: rest, k, arts, stats =>
      if env.timeoutAt k then (arts, stats)
      else
        match extractArtifactFromIsland env island with
        | .error _ => extractLoop env rest (k + 1) arts stats
        | .ok none => extractLoop env rest (k + 1) arts stats
        | .ok (some a) =>
            extractLoop env rest (k + 1) (arts ++ [a])
              (bumpStat stats a.extraction_context.extraction_method)

/-- `ContentArchaeologist.excavate` (archaeologist.py lines 63-149):
record the original size, truncate to `max_content_size`, sanitize —
catching exactly `SecurityValidationError`, which yields the empty result
with the original size —, detect islands catching any exception, then run
the extraction loop and aggregate. -/
def excavate {α : Type} (env : ArchEnv α) (content : String)
    (hint : Option String) : Except PyExc (ExcavationResult α) :=
  let originalSize := content.length
  let truncated :=
    if env.maxContentSize < content.length then content.take env.maxContentSize
    else content
  match env.sanitize truncated with
  | .error e =>
      if e.security then
        .ok { artifacts := [], total_content_size := originalSize,
              processing_time_ms := env.procTimeMs, extraction_stats := [] }
      else .error e
  | .ok sanitized =>
      let islands :=
        match findIslands env.islandScan sanitized hint with
        | .error _ => []
        | .ok l => l
      let st := extractLoop env islands 0 [] []
      .ok { artifacts := st.1, total_content_size := originalSize,
            processing_time_ms := env.procTimeMs, extraction_stats := st.2 }

/-! ### The sanitizer boundary (spec §4.6) -/

/-- Modelled from the spec: `ContentSanitizer.sanitize_string` is called by
`ContentArchaeologist.excavate` (archaeologist.py line 92) and exercised by
the repository's tests, but its definition is absent from
`src/warp_content_processor/utils/security.py` (a fragment of its body sits
stranded inside `validate_yaml_structure`).  Spec §4.6:
`sanitize(content) -> content`, failing with a security error on
size/nesting overrun or a denylisted dangerous pattern (script tags,
`javascript:`/`vbscript:`/`data:` URIs, control characters,
`eval`/`exec`/system-call textual patterns).  The size and nesting bounds
are the ones in `ContentSanitizer.validate_content`. -/
def specUnsafePatterns : List String :=
  ["<script", "javascript:", "vbscript:", "data:", "eval(", "exec(",
    "os.system("]

/-- The control characters of the denylist (the class
`[\x00-\x08\x0B\x0C\x0E-\x1F]` from `ContentSanitizer.UNSAFE_PATTERNS`). -/
def isUnsafeCtrl (c : Char) : Bool :=
  c.toNat ≤ 8 || c.toNat = 11 || c.toNat = 12
    || (14 ≤ c.toNat && c.toNat ≤ 31)

/-- Modelled from the spec: the sanitizer call, failing only with
`SecurityValidationError` (`security = true`). -/
def sanitizeSpec (content : String) : Except PyExc String :=
  if 1000000 < content.length then
    .error ⟨true, "Content exceeds maximum size limit"⟩
  else if 100 < countChar content '\x7b' || 100 < countChar content '[' then
    .error ⟨true, "Content contains excessive nesting"⟩
  else if specUnsafePatterns.any (fun p => containsSub content p) then
    .error ⟨true, "Content contains unsafe pattern"⟩
  else if content.data.any isUnsafeCtrl then
    .error ⟨true, "Content contains unsafe pattern"⟩
  else .ok content

/-! ### YAML island scan (`SchemaIslandDetector._find_yaml_islands`,
island_detector.py lines 117-173) -/

/-- ASCII fragment of the regex class `[\w\-_]`: word characters and the
dash. -/
def isWordDash (c : Char) : Bool :=
  c.isAlphanum || c = '_' || c = '-'

/-- `re.search` of `^\s*[\w\-_]+\s*:\s*.*$` in a single (newline-free) line:
optional whitespace, a non-empty word/dash run, optional whitespace, a
colon; the trailing `\s*.*$` always matches the rest of a line.  The greedy
scan is equivalent to the regex because the character classes involved are
disjoint. -/
def matchKeyValue (l : List Char) : Bool :=
  let l1 := l.dropWhile isPySpace
  let w := l1.takeWhile isWordDash
  let l2 := (l1.dropWhile isWordDash).dropWhile isPySpace
  decide (w ≠ []) && decide (l2.head? = some ':')

/-- `re.search` of `^\s*-\s+[\w\-_]+` in a single line: optional whitespace,
a dash, at least one whitespace, at least one word/dash character.  (The
`headD ' '` default makes the final test fail on the empty remainder, since
a space is not a word character.) -/
def matchListItem (l : List Char) : Bool :=
  let l1 := l.dropWhile isPySpace
  decide (l1.head? = some '-')
    && decide (l1.tail.takeWhile isPySpace ≠ [])
    && isWordDash ((l1.tail.dropWhile isPySpace).headD ' ')

/-- `re.search` of `^\s*[\w\-_]+\s*:\s*\|` in a single line. -/
def matchMultilineKey (l : List Char) : Bool :=
  let l1 := l.dropWhile isPySpace
  let w := l1.takeWhile isWordDash
  let l2 := (l1.dropWhile isWordDash).dropWhile isPySpace
  decide (w ≠ []) && decide (l2.head? = some ':')
    && decide ((l2.tail.dropWhile isPySpace).head? = some '|')

/-- `any(pattern.search(line) for pattern in self.yaml_patterns)`
(island_detector.py line 157) over the three patterns of
`self.yaml_patterns` (lines 50-54). -/
def matchesYamlLine (line : String) : Bool :=
  matchKeyValue line.data || matchListItem line.data
    || matchMultilineKey line.data

/-- Python `"\n".join(lines)`. -/
def joinNL : List String → String
  | [] => ""
  | [s] => s
  | s :: rest => s ++ "\n" ++ joinNL rest

/-- `lines[start_line : end_line + 1]`. -/
def sliceLines (lines : List String) (s e : ℕ) : List String :=
  (lines.drop s).take (e + 1 - s)

/-- The part of `_create_island_from_lines` / `_create_island_from_content`
(island_detector.py lines 216-302) that decides whether a line range yields
an island at all: the bounds checks of `_create_island_from_lines` and the
blank-content check of `_create_island_from_content` (the remaining fields
of the created island do not affect emission). -/
def blockEmittable (lines : List String) (s e : ℕ) : Bool :=
  decide (s ≤ e) && decide (e < lines.length)
    && decide (pyStrip (joinNL (sliceLines lines s e)) ≠ "")

/-- `add_block_if_valid(end_line, min_lines)` (island_detector.py
lines 139-154) projected to the emitted line range: the block state is
`(start line, number of accumulated matching lines)`. -/
def emitBlock (lines : List String) (st : Option (ℕ × ℕ)) (e : ℕ)
    (minLines : ℕ) : List (ℕ × ℕ) :=
  match st with
  | none => []
  | some (s, c) =>
      if minLines ≤ c && blockEmittable lines s e then [(s, e)] else []

/-- The line loop of `_find_yaml_islands` (island_detector.py
lines 156-171): a matching line starts or extends the current block; a
`---` separator emits the block with `min_lines=1`; any other line emits the
block with `min_lines=2`; at end of input the block is emitted with
`min_lines=1`. -/
def yamlScanGo (lines : List String) :
    ℕ → Option (ℕ × ℕ) → List String → List (ℕ × ℕ)
  | i, st, [] => emitBlock lines st (i - 1) 1
  | i, st, line :: rest =>
      if matchesYamlLine line then
        yamlScanGo lines (i + 1)
          (some (match st with | none => (i, 1) | some (s, c) => (s, c + 1)))
          rest
      else if pyStrip line = "---" then
        emitBlock lines st (i - 1) 1 ++ yamlScanGo lines (i + 1) none rest
      else
        emitBlock lines st (i - 1) 2 ++ yamlScanGo lines (i + 1) none rest

/-- The `(start_line, end_line)` ranges of the islands emitted by
`_find_yaml_islands` on `content.split("\n")`. -/
def findYamlIslandRanges (content : String) : List (ℕ × ℕ) :=
  yamlScanGo (content.splitOn "\n") 0 none (content.splitOn "\n")

/-- Whether line `j` of `lines` matches the YAML line patterns (out-of-range
indices do not match: the empty line fails every pattern). -/
def lineMatches (lines : List String) (j : ℕ) : Bool :=
  matchesYamlLine (lines.getD j "")

/-- The emission characterisation of one line range `(s, e)`: a maximal run
of consecutive matching lines, emitted when it has at least two lines or
is terminated by a `---` separator line or by the end of input. -/
def EmittedRange (lines : List String) (s e : ℕ) : Prop :=
  s ≤ e ∧ e < lines.length
    ∧ (∀ j, s ≤ j → j ≤ e → lineMatches lines j = true)
    ∧ (s = 0 ∨ lineMatches lines (s - 1) = false)
    ∧ (e + 1 = lines.length ∨ lineMatches lines (e + 1) = false)
    ∧ (s < e ∨ e + 1 = lines.length ∨ pyStrip (lines.getD (e + 1) "") = "---")

/-- The loop invariant of the block state of `_find_yaml_islands`: an empty
state means no block is open (so the previous line, if any, did not match);
an open block `(s, c)` covers exactly the `c` consecutive matching lines
`s .. i-1` and is maximal to the left. -/
def stInv (lines : List String) : Option (ℕ × ℕ) → ℕ → Prop
  | none, i => i = 0 ∨ lineMatches lines (i - 1) = false
  | some (s, c), i =>
      s + c = i ∧ 1 ≤ c
        ∧ (∀ j, s ≤ j → j < i → lineMatches lines j = true)
        ∧ (s = 0 ∨ lineMatches lines (s - 1) = false)

/-- Which block starts the remaining scan can still emit: the open block's
start, or any start at or after the current line. -/
def stLow : Option (ℕ × ℕ) → ℕ → ℕ → Prop
  | none, i, x => i ≤ x
  | some (s, _), i, x => x = s ∨ i ≤ x

/-- The pairwise relation claimed for artifacts of one excavation result:
their extraction offset ranges do not overlap. -/
def artifactRangesDisjoint {α : Type} (a b : SchemaArtifact α) : Prop :=
  a.extraction_context.end_offset ≤ b.extraction_context.start_offset
    ∨ b.extraction_context.end_offset ≤ a.extraction_context.start_offset

/-- The island-level counterpart of `artifactRangesDisjoint`; note
`islandsOverlap i1 i2 = false` states exactly this. -/
def islandRangesDisjoint (i1 i2 : ContentIsland) : Prop :=
  i1.end_offset ≤ i2.start_offset ∨ i2.end_offset ≤ i1.start_offset

/-- The warning list one pair contributes in the loop of
`PartialYAMLStrategy.attempt_parse`: nothing on a clean parse, the
could-not-parse warning on a `yaml.YAMLError`, the error-processing warning
on any other exception. -/
def pairWarn {α : Type} (load : String → LoadOutcome α) (p : String × String) :
    List String :=
  match load p.2 with
  | .ok _ => []
  | .yamlErr _ => [partialWarn p.1]
  | .otherErr e => [partialErrWarn p.1 e]

/-- All warnings the loop of `PartialYAMLStrategy.attempt_parse` produces,
in pair order. -/
def warnsAll {α : Type} (load : String → LoadOutcome α) :
    List (String × String) → List String
  | [] => []
  | p :: rest => pairWarn load p ++ warnsAll load rest

/-! ### Concrete instances used by the witnesses -/

/-- A concrete strategy that raises (a non-security exception). -/
def cwStratRaise : Strategy Unit := fun _ => .error ⟨false, "boom"⟩

/-- A concrete strategy that succeeds, returning a success result for the
given content. -/
def cwStratOk : Strategy Unit := fun c => .ok (.successResult () c)

/-- A concrete `yaml.safe_load` model: only the value `1` parses. -/
def cwLoad : String → LoadOutcome Unit :=
  fun v => if v = "1" then .ok () else .yamlErr "bad value"

/-- A concrete excavation environment: the spec-modelled sanitizer, an
island scan that finds nothing, and trivial collaborators. -/
def cwEnv : ArchEnv Unit where
  maxContentSize := 10
  sanitize := sanitizeSpec
  islandScan := fun _ _ => .ok []
  detect := fun _ => .ok ("yaml", 1)
  parseYaml := fun c => .ok (.successResult () c)
  timeoutAt := fun _ => false
  procTimeMs := 0

/-- A concrete valid Medium-confidence artifact with three contamination
types. -/
def cwArtifact : SchemaArtifact Unit where
  content_type := .yaml
  raw_content := "k: v"
  cleaned_content := "k: v"
  parsed_data := some ()
  confidence := .medium
  is_valid := true
  extraction_context :=
    { source_type := "unknown"
      start_offset := 0
      end_offset := 4
      contamination_types := {.binaryData, .logPrefixes, .codeFragments}
      extraction_method := "yaml_block"
      original_surrounding := none }
  validation_errors := []
  cleaning_warnings := []

/-- A concrete excavation result containing `cwArtifact`. -/
def cwResult : ExcavationResult Unit where
  artifacts := [cwArtifact]
  total_content_size := 4
  processing_time_ms := 0
  extraction_stats := []

/-! ## Theorems -/

/-- Claim C4: for every `SchemaArtifact`, `quality_score` equals the base
score of its confidence level (High `0.95`, Medium `0.80`, Low `0.65`,
Suspect `0.35`), multiplied by `0.5` when `is_valid` is false, minus `0.05`
per contamination type in its extraction context, clamped to `[0, 1]`; and
for equal validity and contamination count the quality scores are ordered
High ≥ Medium ≥ Low ≥ Suspect. -/
theorem c4_quality_score :
    (∀ (α : Type) (a : SchemaArtifact α),
        a.qualityScore = qualityScoreFn a.confidence a.is_valid
          a.extraction_context.contamination_types.card)
    ∧ (baseScore .high = 95 / 100 ∧ baseScore .medium = 80 / 100
        ∧ baseScore .low = 65 / 100 ∧ baseScore .suspect = 35 / 100)
    ∧ (∀ (c : ExtractionConfidence) (v : Bool) (n : ℕ),
        qualityScoreFn c v n
          = min 1 (max 0 (baseScore c * (if v then 1 else 1 / 2)
              - (n : ℚ) * (5 / 100))))
    ∧ (∀ (v : Bool) (n : ℕ),
        qualityScoreFn .medium v n ≤ qualityScoreFn .high v n
        ∧ qualityScoreFn .low v n ≤ qualityScoreFn .medium v n
        ∧ qualityScoreFn .suspect v n ≤ qualityScoreFn .low v n) := by
  refine ⟨fun α a => rfl, ⟨rfl, rfl, rfl, rfl⟩, ?_, ?_⟩
  · intro c v n
    cases v <;> norm_num [qualityScoreFn]
  · have hmono : ∀ (x y : ℚ) (v : Bool) (n : ℕ), 0 ≤ x → x ≤ y →
        min 1 (max 0 ((if v then x else x * (5 / 10)) - (n : ℚ) * (5 / 100)))
          ≤ min 1 (max 0 ((if v then y else y * (5 / 10)) - (n : ℚ) * (5 / 100))) := by
      intro x y v n hx hxy
      cases v <;> simp only [Bool.false_eq_true, if_false, if_true] <;> gcongr
    intro v n
    exact ⟨hmono (80 / 100) (95 / 100) v n (by norm_num) (by norm_num),
      hmono (65 / 100) (80 / 100) v n (by norm_num) (by norm_num),
      hmono (35 / 100) (65 / 100) v n (by norm_num) (by norm_num)⟩



/-- Claim C5: for every island quality score, detection confidence and
contamination count, the fused confidence is computed from
`combined = max(0, (quality + detection)/2 - 0.1 * ncontam)` and mapped to
High for `combined ≥ 0.85`, Medium for `0.65 ≤ combined < 0.85`, Low for
`0.35 ≤ combined < 0.65`, and Suspect otherwise. -/
theorem c5_confidence_fusion (q d : ℚ) (n : ℕ) :
    (calcExtractionConfidence q d n = .high
      ↔ 85 / 100 ≤ max 0 ((q + d) / 2 - (n : ℚ) * (1 / 10)))
    ∧ (calcExtractionConfidence q d n = .medium
      ↔ 65 / 100 ≤ max 0 ((q + d) / 2 - (n : ℚ) * (1 / 10))
        ∧ max 0 ((q + d) / 2 - (n : ℚ) * (1 / 10)) < 85 / 100)
    ∧ (calcExtractionConfidence q d n = .low
      ↔ 35 / 100 ≤ max 0 ((q + d) / 2 - (n : ℚ) * (1 / 10))
        ∧ max 0 ((q + d) / 2 - (n : ℚ) * (1 / 10)) < 65 / 100)
    ∧ (calcExtractionConfidence q d n = .suspect
      ↔ max 0 ((q + d) / 2 - (n : ℚ) * (1 / 10)) < 35 / 100) := by
  unfold calcExtractionConfidence
  dsimp only
  split_ifs with h1 h2 h3 <;>
    refine ⟨?_, ?_, ?_, ?_⟩ <;> constructor <;> intro h <;>
      first
        | rfl
        | linarith
        | (refine ⟨?_, ?_⟩ <;> linarith)
        | (simp at h)

/-- Claim C7 (divergence witness): the newline-collapsing step of island
cleaning maps a run of exactly five newlines to four newlines — the first
substitution on four consecutive newlines consumes four of the five,
leaving a run of four that the five-or-more substitution cannot match —
and not to the two newlines the claim states; runs of exactly four go to
three and runs of six go to two as claimed. -/
theorem c7_newline_collapse_eval :
    collapseNewlines "a\n\n\n\n\nb" = "a\n\n\n\nb"
    ∧ collapseNewlines "a\n\n\n\n\nb" ≠ "a\n\nb"
    ∧ collapseNewlines "a\n\n\n\nb" = "a\n\n\nb"
    ∧ collapseNewlines "a\n\n\n\n\n\nb" = "a\n\nb" := by
  exact ⟨rfl, by decide, rfl, rfl⟩

/-- Claim C10: an artifact appears in
`ExcavationResult.high_quality_artifacts` iff its confidence is High or
Medium, it is valid, its validation errors are empty and its quality score
is at least `0.7`; in particular a valid Medium-confidence artifact with
three or more contamination types has quality score at most `0.65` and is
excluded. -/
theorem c10_high_quality_iff :
    (∀ (α : Type) (r : ExcavationResult α) (a : SchemaArtifact α),
        a ∈ r.highQualityArtifacts
          ↔ a ∈ r.artifacts
            ∧ (a.confidence = .high ∨ a.confidence = .medium)
            ∧ a.is_valid = true
            ∧ a.validation_errors = []
            ∧ (7 : ℚ) / 10 ≤ a.qualityScore)
    ∧ (∀ (α : Type) (r : ExcavationResult α) (a : SchemaArtifact α),
        a.confidence = .medium → a.is_valid = true →
        3 ≤ a.extraction_context.contamination_types.card →
        a.qualityScore ≤ 65 / 100 ∧ a ∉ r.highQualityArtifacts) := by
  have hmem : ∀ (α : Type) (r : ExcavationResult α) (a : SchemaArtifact α),
      a ∈ r.highQualityArtifacts
        ↔ a ∈ r.artifacts
          ∧ (a.confidence = .high ∨ a.confidence = .medium)
          ∧ a.is_valid = true
          ∧ a.validation_errors = []
          ∧ (7 : ℚ) / 10 ≤ a.qualityScore := by
    intro α r a
    simp only [ExcavationResult.highQualityArtifacts, List.mem_filter,
      SchemaArtifact.isHighQuality, Bool.and_eq_true, decide_eq_true_eq]
    tauto
  refine ⟨hmem, ?_⟩
  intro α r a hconf hval hcard
  have h3 : (3 : ℚ) ≤ (a.extraction_context.contamination_types.card : ℚ) := by
    exact_mod_cast hcard
  have hq : a.qualityScore ≤ 65 / 100 := by
    unfold SchemaArtifact.qualityScore qualityScoreFn
    rw [hconf, hval]
    simp only [baseScore, if_true]
    exact le_trans (min_le_right _ _) (max_le (by norm_num) (by linarith))
  refine ⟨hq, fun hin => ?_⟩
  have := ((hmem α r a).mp hin).2.2.2.2
  linarith

/-- Witness for C10: a concrete valid Medium artifact with three
contamination types is excluded from the high-quality subset. -/
theorem c10_high_quality_iff_witness :
    cwArtifact.qualityScore ≤ 65 / 100
    ∧ cwArtifact ∉ cwResult.highQualityArtifacts := by
  exact c10_high_quality_iff.2 Unit cwResult cwArtifact rfl rfl (by decide)

/-- A failing prefix of strategies is skipped: the loop reaches the
remaining strategies with some accumulated last error. -/
theorem parseLoop_skip_fails {α : Type} (content : String) :
    ∀ (pre rest : List (Strategy α)) (le0 : Option String),
      (∀ s2 ∈ pre, strategyFails s2 content) →
      ∃ le1, parseLoop content (pre ++ rest) le0 = parseLoop content rest le1 := by
  intro pre
  induction pre with
  | nil => intro rest le0 _; exact ⟨le0, rfl⟩
  | cons s pre ih =>
    intro rest le0 hall
    have hs := hall s (by simp)
    rcases hs with ⟨r, hr, hrs⟩ | ⟨e, he⟩
    · have hstep : parseLoop content ((s :: pre) ++ rest) le0
          = parseLoop content (pre ++ rest) r.error_message := by
        simp [parseLoop, hr, hrs]
      rw [hstep]
      exact ih rest _ (fun s2 h2 => hall s2 (by simp [h2]))
    · have hstep : parseLoop content ((s :: pre) ++ rest) le0
          = parseLoop content (pre ++ rest) (some e.msg) := by
        simp [parseLoop, he]
      rw [hstep]
      exact ih rest _ (fun s2 h2 => hall s2 (by simp [h2]))

/-- Claim C2: the strategies run strictly in the configured order (the YAML
parser chain is Standard, Cleaned, Mangled, Reconstructed, Partial); the
first strategy whose result has `success = true` short-circuits the chain
and its result is returned unchanged; an exception inside a strategy counts
only as that strategy's failure and the chain continues; when every
strategy fails, `parse` returns exactly one failure result whose error
message contains (ends with) the last strategy's error. -/
theorem c2_strategy_cascade :
    (∀ (α : Type) (content : String) (pre post : List (Strategy α))
        (s : Strategy α) (r : ParseResult α),
        isBlank content = false →
        (∀ s2 ∈ pre, strategyFails s2 content) →
        s content = .ok r → r.success = true →
        errorTolerantParse (pre ++ s :: post) content = r)
    ∧ (∀ (α : Type) (content : String) (pre : List (Strategy α))
        (s : Strategy α),
        isBlank content = false →
        (∀ s2 ∈ pre ++ [s], strategyFails s2 content) →
        errorTolerantParse (pre ++ [s]) content
          = .failureResult
              ("All parsing strategies failed. Last error: "
                ++ strategyErrStr s content) content)
    ∧ (∀ (α : Type) (s1 s2 s3 s4 s5 : Strategy α),
        createYamlChain s1 s2 s3 s4 s5 = [s1, s2, s3, s4, s5]) := by
  refine ⟨?_, ?_, fun α s1 s2 s3 s4 s5 => rfl⟩
  · intro α content pre post s r hblank hfails hs hrs
    simp only [errorTolerantParse, hblank, Bool.false_eq_true, if_false]
    obtain ⟨le1, heq⟩ := parseLoop_skip_fails content pre (s :: post) none hfails
    rw [heq]
    simp [parseLoop, hs, hrs]
  · intro α content pre s hblank hfails
    simp only [errorTolerantParse, hblank, Bool.false_eq_true, if_false]
    obtain ⟨le1, heq⟩ := parseLoop_skip_fails content pre [s] none
      (fun s2 h2 => hfails s2 (by simp [h2]))
    rw [heq]
    have hs := hfails s (by simp)
    rcases hs with ⟨r, hr, hrs⟩ | ⟨e, he⟩
    · simp [parseLoop, hr, hrs, strategyErrStr]
    · simp [parseLoop, he, strategyErrStr, optStr]

/-- Witness for C2: with a raising first strategy and a succeeding second
one, `parse` returns the second strategy's result. -/
theorem c2_strategy_cascade_witness :
    errorTolerantParse [cwStratRaise, cwStratOk] "k: v"
      = ParseResult.successResult () "k: v" := by
  have h := c2_strategy_cascade.1 Unit "k: v" [cwStratRaise] [] cwStratOk
    (ParseResult.successResult () "k: v") (by decide)
    (fun s2 h2 => by
      simp only [List.mem_singleton] at h2
      subst h2
      exact Or.inr ⟨⟨false, "boom"⟩, rfl⟩)
    rfl rfl
  simpa using h

/-- Looking up a key just inserted by dict assignment yields the assigned
value. -/
theorem dictGet_dictInsert_self {α : Type} (d : List (String × PVal α))
    (k : String) (v : PVal α) : dictGet (dictInsert d k v) k = some v := by
  induction d with
  | nil => simp [dictInsert, dictGet]
  | cons p rest ih =>
    by_cases hk : p.1 = k <;> simp [dictInsert, dictGet, hk, ih]

/-- The warnings component of the partial-strategy fold: the initial
warnings followed by the per-pair warnings in pair order. -/
theorem partialFold_snd {α : Type} (load : String → LoadOutcome α) :
    ∀ (pairs : List (String × String)) (d0 : List (String × PVal α))
      (w0 : List String),
      (pairs.foldl (partialStep load) (d0, w0)).2 = w0 ++ warnsAll load pairs := by
  intro pairs
  induction pairs with
  | nil => intro d0 w0; simp [warnsAll]
  | cons p rest ih =>
    intro d0 w0
    cases hl : load p.2 <;>
      simp [partialStep, hl, warnsAll, pairWarn, ih, List.append_assoc]

/-- No warnings are produced iff every extracted value loads cleanly. -/
theorem warnsAll_eq_nil {α : Type} (load : String → LoadOutcome α) :
    ∀ pairs : List (String × String),
      warnsAll load pairs = [] ↔ ∀ p ∈ pairs, ∃ a, load p.2 = .ok a := by
  intro pairs
  induction pairs with
  | nil => simp [warnsAll]
  | cons p rest ih =>
    cases hl : load p.2 <;> simp [warnsAll, pairWarn, hl, ih]

/-- Claim C9: when the partial YAML strategy succeeds, its parsed data is a
dict that carries the synthetic `_parsing_warnings` key — holding exactly
the per-key warning list — precisely when at least one extracted value
failed to load; when every value loads cleanly the dict is the plain
per-pair fold and no such key is added. -/
theorem c9_partial_warnings {α : Type} (load : String → LoadOutcome α)
    (content : String)
    (h : (partialAttemptParse load content).success = true) :
    ∃ d, (partialAttemptParse load content).data = some d
      ∧ ((partialFold load (extractKeyValuePairs content)).2 ≠ [] →
          dictGet d "_parsing_warnings"
            = some (.warns (partialFold load (extractKeyValuePairs content)).2))
      ∧ ((partialFold load (extractKeyValuePairs content)).2 = [] →
          d = (partialFold load (extractKeyValuePairs content)).1)
      ∧ ((partialFold load (extractKeyValuePairs content)).2 = []
          ↔ ∀ p ∈ extractKeyValuePairs content, ∃ a, load p.2 = .ok a) := by
  have hiff : (partialFold load (extractKeyValuePairs content)).2 = []
      ↔ ∀ p ∈ extractKeyValuePairs content, ∃ a, load p.2 = .ok a := by
    rw [show (partialFold load (extractKeyValuePairs content)).2
        = warnsAll load (extractKeyValuePairs content) by
      simpa using partialFold_snd load (extractKeyValuePairs content) [] []]
    exact warnsAll_eq_nil load (extractKeyValuePairs content)
  unfold partialAttemptParse at h ⊢
  dsimp only at h ⊢
  split_ifs at h ⊢ with h1 h2 h3 h4
  · simp [ParseResult.failureResult] at h
  · simp [ParseResult.failureResult] at h
  · simp [ParseResult.failureResult] at h
  · refine ⟨_, rfl, ?_, fun _ => rfl, hiff⟩
    intro hne
    exact absurd (List.isEmpty_iff.mp h4) hne
  · refine ⟨_, rfl, ?_, ?_, hiff⟩
    · intro _
      exact dictGet_dictInsert_self _ _ _
    · intro hnil
      exact absurd (List.isEmpty_iff.mpr hnil) h4

/-- Witness for C9: on `a: 1` / `b: x` with only `1` loading cleanly, the
returned dict carries `_parsing_warnings` with exactly the warning for key
`b`. -/
theorem c9_partial_warnings_witness :
    ∃ d, (partialAttemptParse cwLoad "a: 1\nb: x").data = some d
      ∧ dictGet d "_parsing_warnings" = some (.warns [partialWarn "b"]) := by
  obtain ⟨d, hd, hw, -, -⟩ := c9_partial_warnings cwLoad "a: 1\nb: x" (by decide)
  have hst : (partialFold cwLoad (extractKeyValuePairs "a: 1\nb: x")).2
      = [partialWarn "b"] := by decide
  have h2 := hw (by rw [hst]; simp)
  rw [hst] at h2
  exact ⟨d, hd, h2⟩

/-- The spec-modelled sanitizer fails only with security errors. -/
theorem sanitizeSpec_security (s : String) (e : PyExc)
    (h : sanitizeSpec s = .error e) : e.security = true := by
  unfold sanitizeSpec at h
  split_ifs at h <;>
    exact (Except.error.inj h) ▸ rfl

/-- Claim C1: for every input string and source hint, `excavate` returns a
well-formed `ExcavationResult` — with `total_content_size` the untruncated
input length — and never propagates an exception, whatever the island scan,
the classifier, the parser or the timeout oracle do, provided the sanitizer
fails only with security errors (which the spec-modelled sanitizer does). -/
theorem c1_excavate_never_raises {α : Type} (env : ArchEnv α)
    (content : String) (hint : Option String)
    (hsan : ∀ s e, env.sanitize s = .error e → e.security = true) :
    ∃ r, excavate env content hint = .ok r
      ∧ r.total_content_size = content.length := by
  unfold excavate
  cases hs : env.sanitize
      (if env.maxContentSize < content.length then
        content.take env.maxContentSize else content) with
  | error e =>
      simp only [hs]
      rw [hsan _ _ hs]
      exact ⟨_, rfl, rfl⟩
  | ok sanitized =>
      simp only [hs]
      exact ⟨_, rfl, rfl⟩

/-- Witness for C1: the concrete environment with the spec-modelled
sanitizer, on the empty string. -/
theorem c1_excavate_never_raises_witness :
    ∃ r, excavate cwEnv "" none = .ok r
      ∧ r.total_content_size = String.length "" := by
  exact c1_excavate_never_raises cwEnv "" none
    (fun s e h => sanitizeSpec_security s e h)

/-- Claim C6: on the input `<script>alert(1)</script>` — whose length is
25 — the spec-modelled sanitizer raises a security error, so `excavate`
(with the default 100 MiB size limit) returns no artifacts, empty
extraction stats, and the input length as `total_content_size`, whatever
the other collaborators and the source hint are. -/
theorem c6_script_rejection {α : Type}
    (scan : String → Option String → Except PyExc (List ContentIsland))
    (det : String → Except PyExc (String × ℚ))
    (par : String → Except PyExc (ParseResult α))
    (tmo : ℕ → Bool) (t : ℕ) (hint : Option String) :
    excavate
      { maxContentSize := 104857600, sanitize := sanitizeSpec,
        islandScan := scan, detect := det, parseYaml := par,
        timeoutAt := tmo, procTimeMs := t }
      "<script>alert(1)</script>" hint
      = .ok { artifacts := [], total_content_size := 25,
              processing_time_ms := t, extraction_stats := [] }
    ∧ String.length "<script>alert(1)</script>" = 25 := by
  exact ⟨rfl, rfl⟩

/-- `islandsOverlap` is the boolean negation of range disjointness. -/
theorem islandsOverlap_eq_false_iff (i j : ContentIsland) :
    islandsOverlap i j = false ↔ islandRangesDisjoint i j := by
  unfold islandsOverlap islandRangesDisjoint
  simp only [Bool.not_eq_false', Bool.or_eq_true, decide_eq_true_eq]

/-- Range disjointness is symmetric. -/
theorem islandRangesDisjoint_symm {i j : ContentIsland}
    (h : islandRangesDisjoint i j) : islandRangesDisjoint j i := h.symm

/-- The greedy filter keeps a pairwise-disjoint accumulator pairwise
disjoint. -/
theorem keepNonOverlapping_pairwise :
    ∀ (rest acc : List ContentIsland),
      acc.Pairwise islandRangesDisjoint →
      (keepNonOverlapping acc rest).Pairwise islandRangesDisjoint := by
  intro rest
  induction rest with
  | nil => intro acc h; simpa [keepNonOverlapping] using h
  | cons i rest ih =>
    intro acc hacc
    by_cases hov : acc.any (fun s => islandsOverlap i s) = true
    · simpa [keepNonOverlapping, hov] using ih acc hacc
    · have hfalse : acc.any (fun s => islandsOverlap i s) = false :=
        Bool.eq_false_iff.mpr hov
      have hov2 : ∀ s ∈ acc, islandsOverlap i s = false := by
        intro s hsmem
        by_contra hne
        exact hov (List.any_eq_true.mpr
          ⟨s, hsmem, Bool.ne_false_iff.mp hne⟩)
      simp only [keepNonOverlapping, hfalse, Bool.false_eq_true, if_false]
      apply ih
      rw [List.pairwise_append]
      refine ⟨hacc, List.pairwise_singleton _ _, ?_⟩
      intro b hb c hc
      simp only [List.mem_singleton] at hc
      subst hc
      exact islandRangesDisjoint_symm
        ((islandsOverlap_eq_false_iff c b).mp (hov2 b hb))

/-- Stable insertion permutes. -/
theorem insertByQuality_perm (i : ContentIsland) (l : List ContentIsland) :
    List.Perm (insertByQuality i l) (i :: l) := by
  induction l with
  | nil => exact List.Perm.refl _
  | cons j rest ih =>
    unfold insertByQuality
    split_ifs with h
    · exact ((ih.cons j).trans (List.Perm.swap i j rest))
    · exact List.Perm.refl _

/-- The stable descending sort permutes. -/
theorem sortByQualityDesc_perm (l : List ContentIsland) :
    List.Perm (sortByQualityDesc l) l := by
  induction l with
  | nil => exact List.Perm.refl _
  | cons i rest ih =>
    exact (insertByQuality_perm i (sortByQualityDesc rest)).trans (ih.cons i)

/-- `_remove_overlapping_islands` always yields pairwise-disjoint ranges. -/
theorem removeOverlappingIslands_pairwise (islands : List ContentIsland) :
    (removeOverlappingIslands islands).Pairwise islandRangesDisjoint := by
  unfold removeOverlappingIslands
  split_ifs with h
  · match islands, h with
    | [], _ => exact List.Pairwise.nil
    | [a], _ => exact List.pairwise_singleton _ _
  · exact keepNonOverlapping_pairwise _ [] List.Pairwise.nil

/-- A successful `find_islands` yields pairwise-disjoint ranges. -/
theorem findIslands_ok_pairwise
    (scan : String → Option String → Except PyExc (List ContentIsland))
    (content : String) (hint : Option String) (l : List ContentIsland)
    (h : findIslands scan content hint = .ok l) :
    l.Pairwise islandRangesDisjoint := by
  unfold findIslands at h
  split_ifs at h with hblank
  · obtain rfl : ([] : List ContentIsland) = l := by
      simpa using h
    exact List.Pairwise.nil
  · cases hscan : scan content hint with
    | error e => rw [hscan] at h; simp [Bind.bind, Except.bind] at h
    | ok raw =>
      rw [hscan] at h
      simp only [Bind.bind, Except.bind, pure, Except.pure, Except.ok.injEq] at h
      subst h
      exact ((sortByQualityDesc_perm _).pairwise_iff
        (fun h2 => islandRangesDisjoint_symm h2)).mpr
        (removeOverlappingIslands_pairwise raw)

/-- A successfully extracted artifact carries its island's offsets. -/
theorem extractArtifact_offsets {α : Type} (env : ArchEnv α)
    (island : ContentIsland) (a : SchemaArtifact α)
    (h : extractArtifactFromIsland env island = .ok (some a)) :
    a.extraction_context.start_offset = island.start_offset
    ∧ a.extraction_context.end_offset = island.end_offset := by
  unfold extractArtifactFromIsland at h
  cases hdet : env.detect island.content with
  | error e => rw [hdet] at h; simp [Bind.bind, Except.bind] at h
  | ok det =>
    rw [hdet] at h
    cases hpr : env.parseYaml island.content with
    | error e => rw [hpr] at h; simp [Bind.bind, Except.bind] at h
    | ok pr =>
      rw [hpr] at h
      simp only [Bind.bind, Except.bind, pure, Except.pure, Except.ok.injEq,
        Option.some.injEq] at h
      subst h
      exact ⟨rfl, rfl⟩

/-- The extraction loop preserves pairwise disjointness of artifact
ranges. -/
theorem extractLoop_pairwise {α : Type} (env : ArchEnv α) :
    ∀ (islands : List ContentIsland) (k : ℕ)
      (arts : List (SchemaArtifact α)) (stats : List (String × ℕ)),
      arts.Pairwise artifactRangesDisjoint →
      (∀ b ∈ arts, ∀ i ∈ islands,
        b.extraction_context.end_offset ≤ i.start_offset
        ∨ i.end_offset ≤ b.extraction_context.start_offset) →
      islands.Pairwise islandRangesDisjoint →
      (extractLoop env islands k arts stats).1.Pairwise artifactRangesDisjoint := by
  intro islands
  induction islands with
  | nil => intro k arts stats hp _ _; simpa [extractLoop] using hp
  | cons i rest ih =>
    intro k arts stats hp hcross hisl
    simp only [extractLoop]
    split_ifs with ht
    · exact hp
    · cases hex : extractArtifactFromIsland env i with
      | error e =>
        exact ih (k + 1) arts stats hp
          (fun b hb j hj => hcross b hb j (List.mem_cons_of_mem _ hj))
          (List.pairwise_cons.mp hisl).2
      | ok oa =>
        cases oa with
        | none =>
          exact ih (k + 1) arts stats hp
            (fun b hb j hj => hcross b hb j (List.mem_cons_of_mem _ hj))
            (List.pairwise_cons.mp hisl).2
        | some a =>
          have hoff := extractArtifact_offsets env i a hex
          apply ih (k + 1) (arts ++ [a]) _ ?_ ?_ (List.pairwise_cons.mp hisl).2
          · rw [List.pairwise_append]
            refine ⟨hp, List.pairwise_singleton _ _, ?_⟩
            intro b hb c hc
            simp only [List.mem_singleton] at hc
            subst hc
            unfold artifactRangesDisjoint
            rw [hoff.1, hoff.2]
            exact hcross b hb i (List.mem_cons_self _ _)
          · intro b hb j hj
            rcases List.mem_append.mp hb with hb2 | hb2
            · exact hcross b hb2 j (List.mem_cons_of_mem _ hj)
            · simp only [List.mem_singleton] at hb2
              subst hb2
              rw [hoff.1, hoff.2]
              exact (List.pairwise_cons.mp hisl).1 j hj

/-- Claim C3: any two artifacts of one `excavate` result have
non-overlapping offset ranges. -/
theorem c3_artifact_nonoverlap {α : Type} (env : ArchEnv α)
    (content : String) (hint : Option String) (r : ExcavationResult α)
    (h : excavate env content hint = .ok r) :
    r.artifacts.Pairwise artifactRangesDisjoint := by
  unfold excavate at h
  dsimp only at h
  cases hs : env.sanitize
      (if env.maxContentSize < content.length then
        content.take env.maxContentSize else content) with
  | error e =>
    rw [hs] at h
    dsimp only at h
    split_ifs at h with hsec
    simp only [Except.ok.injEq] at h
    subst h
    exact List.Pairwise.nil
  | ok sanitized =>
    rw [hs] at h
    dsimp only at h
    simp only [Except.ok.injEq] at h
    subst h
    cases hfi : findIslands env.islandScan sanitized hint with
    | error e =>
      exact extractLoop_pairwise env [] 0 [] [] List.Pairwise.nil
        (fun b hb => absurd hb (List.not_mem_nil b)) List.Pairwise.nil
    | ok l =>
      exact extractLoop_pairwise env l 0 [] [] List.Pairwise.nil
        (fun b hb => absurd hb (List.not_mem_nil b))
        (findIslands_ok_pairwise env.islandScan sanitized hint l hfi)

/-- Witness for C3: the concrete environment on a one-character input. -/
theorem c3_artifact_nonoverlap_witness :
    ∃ r, excavate cwEnv "x" none = .ok r
      ∧ r.artifacts.Pairwise artifactRangesDisjoint := by
  refine ⟨{ artifacts := [], total_content_size := 1,
            processing_time_ms := 0, extraction_stats := [] }, rfl, ?_⟩
  exact c3_artifact_nonoverlap cwEnv "x" none _ rfl

/-- An element that fails the predicate survives `dropWhile`. -/
theorem mem_dropWhile_of_not {α : Type} (p : α → Bool) {c : α} :
    ∀ l : List α, c ∈ l → p c = false → c ∈ l.dropWhile p := by
  intro l
  induction l with
  | nil => intro h _; exact absurd h (List.not_mem_nil c)
  | cons a l ih =>
    intro hc hp
    by_cases hpa : p a = true
    · rw [List.dropWhile_cons_of_pos hpa]
      rcases List.mem_cons.mp hc with rfl | hc2
      · rw [hp] at hpa; exact absurd hpa (by simp)
      · exact ih hc2 hp
    · rw [List.dropWhile_cons_of_neg hpa]
      exact hc

/-- A list whose space-dropped form is non-empty contains a non-space
character. -/
theorem exists_nonspace_of_dropWhile_ne_nil (l : List Char)
    (h : l.dropWhile isPySpace ≠ []) : ∃ c ∈ l, isPySpace c = false := by
  by_contra hc
  push_neg at hc
  exact h (List.dropWhile_eq_nil_iff.mpr
    (fun x hx => Bool.ne_false_iff.mp (hc x hx)))

/-- A line matching any YAML line pattern contains a non-space character. -/
theorem matchesYamlLine_nonspace (line : String)
    (h : matchesYamlLine line = true) :
    ∃ c ∈ line.data, isPySpace c = false := by
  apply exists_nonspace_of_dropWhile_ne_nil
  intro hnil
  unfold matchesYamlLine matchKeyValue matchListItem matchMultilineKey at h
  dsimp only at h
  rw [hnil] at h
  simp at h

/-- A string containing a non-space character does not strip to empty. -/
theorem pyStrip_ne_empty {s : String} {c : Char} (hc : c ∈ s.data)
    (hns : isPySpace c = false) : pyStrip s ≠ "" := by
  unfold pyStrip
  intro h
  have h2 : ((s.data.dropWhile isPySpace).reverse.dropWhile isPySpace).reverse
      = [] := by
    have := congrArg String.data h
    simpa using this
  have m1 := mem_dropWhile_of_not isPySpace s.data hc hns
  have m2 : c ∈ (s.data.dropWhile isPySpace).reverse := List.mem_reverse.mpr m1
  have m3 := mem_dropWhile_of_not isPySpace _ m2 hns
  rw [List.reverse_eq_nil_iff] at h2
  rw [h2] at m3
  exact absurd m3 (List.not_mem_nil c)

/-- String concatenation concatenates the character data. -/
theorem data_append (a b : String) : (a ++ b).data = a.data ++ b.data := rfl

/-- A character of the first line occurs in the newline-join. -/
theorem joinNL_head_mem {x : String} {rest : List String} {c : Char}
    (hc : c ∈ x.data) : c ∈ (joinNL (x :: rest)).data := by
  cases rest with
  | nil => simpa [joinNL] using hc
  | cons y t =>
    show c ∈ (x ++ "\n" ++ joinNL (y :: t)).data
    rw [data_append, data_append]
    exact List.mem_append.mpr (Or.inl (List.mem_append.mpr (Or.inl hc)))

/-- A non-degenerate slice starts with its first line. -/
theorem sliceLines_eq_cons {lines : List String} {s e : ℕ} (h1 : s ≤ e)
    (h2 : s < lines.length) :
    sliceLines lines s e
      = lines.getD s "" :: (lines.drop (s + 1)).take (e - s) := by
  unfold sliceLines
  rw [List.drop_eq_getElem_cons h2]
  rw [show e + 1 - s = (e - s) + 1 by omega]
  rw [List.take_succ_cons]
  rw [List.getD_eq_getElem lines "" h2]

/-- A block whose first line matches is emittable: the bounds checks hold
and its joined content does not strip to empty. -/
theorem blockEmittable_of_matches {lines : List String} {s e : ℕ}
    (h1 : s ≤ e) (h2 : e < lines.length)
    (hm : lineMatches lines s = true) :
    blockEmittable lines s e = true := by
  have hs : s < lines.length := lt_of_le_of_lt h1 h2
  obtain ⟨c, hc, hns⟩ := matchesYamlLine_nonspace _ hm
  unfold blockEmittable
  simp only [Bool.and_eq_true, decide_eq_true_eq]
  refine ⟨⟨h1, h2⟩, ?_⟩
  rw [sliceLines_eq_cons h1 hs]
  exact pyStrip_ne_empty (joinNL_head_mem hc) hns

/-- Inside a run of matching lines `s .. i-1` that stops at `i` (end of
input or a non-matching line), the only emittable range starting at `s` ends
at `i - 1`. -/
theorem run_end_eq {lines : List String} {s c i y : ℕ}
    (hsum : s + c = i) (hc1 : 1 ≤ c)
    (hall : ∀ j, s ≤ j → j < i → lineMatches lines j = true)
    (hilen : i - 1 < lines.length)
    (hstop : i = lines.length ∨ lineMatches lines i = false)
    (hE : EmittedRange lines s y) : y = i - 1 := by
  unfold EmittedRange at hE
  obtain ⟨hxy, hylen, hallxy, -, hyright, -⟩ := hE
  by_contra hne
  rcases (by omega : y < i - 1 ∨ i - 1 < y) with hlt | hgt
  · rcases hyright with hl2 | hm2
    · omega
    · rw [hall (y + 1) (by omega) (by omega)] at hm2
      exact Bool.noConfusion hm2
  · rcases hstop with hieq | hmif
    · omega
    · have := hallxy i (by omega) (by omega)
      rw [hmif] at this
      exact Bool.noConfusion this

/-- The state characterisation of the `_find_yaml_islands` line loop: from
line `i` with a valid block state, the emitted ranges are exactly the
emittable maximal matching runs whose start is the open block's start or
lies at or after `i`. -/
theorem yamlScanGo_mem_iff (lines : List String) :
    ∀ (rest : List String) (i : ℕ) (st : Option (ℕ × ℕ)),
      rest = lines.drop i → i ≤ lines.length → stInv lines st i →
      ∀ x y, ((x, y) ∈ yamlScanGo lines i st rest
        ↔ EmittedRange lines x y ∧ stLow st i x) := by
  intro rest
  induction rest with
  | nil =>
    intro i st hrest hle hinv x y
    have hieq : i = lines.length := by
      by_contra hne
      have hi : i < lines.length := by omega
      rw [List.drop_eq_getElem_cons hi] at hrest
      exact List.noConfusion hrest
    cases st with
    | none =>
      simp only [yamlScanGo, emitBlock, List.not_mem_nil, false_iff]
      rintro ⟨hE, hL⟩
      unfold EmittedRange at hE
      dsimp only [stLow] at hL
      omega
    | some sc =>
      obtain ⟨s, c⟩ := sc
      dsimp only [stInv] at hinv
      obtain ⟨hsum, hc1, hall, hleft⟩ := hinv
      have hse : s ≤ i - 1 := by omega
      have hilen : i - 1 < lines.length := by omega
      have hms : lineMatches lines s = true := hall s le_rfl (by omega)
      have hemit := blockEmittable_of_matches hse hilen hms
      have heq : yamlScanGo lines i (some (s, c)) [] = [(s, i - 1)] := by
        simp [yamlScanGo, emitBlock, hemit, hc1]
      rw [heq]
      simp only [List.mem_singleton, Prod.mk.injEq]
      constructor
      · rintro ⟨rfl, rfl⟩
        refine ⟨?_, Or.inl rfl⟩
        unfold EmittedRange
        refine ⟨hse, hilen, ?_, hleft, ?_, ?_⟩
        · intro j hj1 hj2; exact hall j hj1 (by omega)
        · left; omega
        · right; left; omega
      · rintro ⟨hE, hL⟩
        dsimp only [stLow] at hL
        have hx : x = s := by
          rcases hL with rfl | hge
          · rfl
          · exfalso
            unfold EmittedRange at hE
            omega
        subst hx
        exact ⟨rfl, run_end_eq hsum hc1 hall hilen (Or.inl hieq) hE⟩
  | cons line rest ih =>
    intro i st hrest hle hinv x y
    have hi : i < lines.length := by
      by_contra h2
      push_neg at h2
      rw [List.drop_eq_nil_of_le h2] at hrest
      exact List.noConfusion hrest
    rw [List.drop_eq_getElem_cons hi] at hrest
    injection hrest with hl hr
    have hline : lineMatches lines i = matchesYamlLine line := by
      rw [lineMatches, List.getD_eq_getElem lines "" hi, hl]
    by_cases hm : matchesYamlLine line = true
    · -- a matching line starts or extends the block
      have hmi : lineMatches lines i = true := by rw [hline]; exact hm
      cases st with
      | none =>
        have hbranch : yamlScanGo lines i none (line :: rest)
            = yamlScanGo lines (i + 1) (some (i, 1)) rest := by
          simp [yamlScanGo, hm]
        have hinv2 : stInv lines (some (i, 1)) (i + 1) := by
          dsimp only [stInv] at hinv ⊢
          refine ⟨rfl, le_rfl, ?_, hinv⟩
          intro j hj1 hj2
          rw [show j = i from by omega]
          exact hmi
        rw [hbranch, ih (i + 1) (some (i, 1)) hr (by omega) hinv2 x y]
        constructor
        · rintro ⟨hE, hL⟩
          refine ⟨hE, ?_⟩
          dsimp only [stLow] at hL ⊢
          omega
        · rintro ⟨hE, hL⟩
          refine ⟨hE, ?_⟩
          dsimp only [stLow] at hL ⊢
          omega
      | some sc =>
        obtain ⟨s, c⟩ := sc
        dsimp only [stInv] at hinv
        obtain ⟨hsum, hc1, hall, hleft⟩ := hinv
        have hbranch : yamlScanGo lines i (some (s, c)) (line :: rest)
            = yamlScanGo lines (i + 1) (some (s, c + 1)) rest := by
          simp [yamlScanGo, hm]
        have hinv2 : stInv lines (some (s, c + 1)) (i + 1) := by
          dsimp only [stInv]
          refine ⟨by omega, by omega, ?_, hleft⟩
          intro j hj1 hj2
          by_cases hji : j = i
          · rw [hji]; exact hmi
          · exact hall j hj1 (by omega)
        rw [hbranch, ih (i + 1) (some (s, c + 1)) hr (by omega) hinv2 x y]
        constructor
        · rintro ⟨hE, hL⟩
          refine ⟨hE, ?_⟩
          dsimp only [stLow] at hL ⊢
          rcases hL with rfl | hge
          · exact Or.inl rfl
          · right; omega
        · rintro ⟨hE, hL⟩
          refine ⟨hE, ?_⟩
          dsimp only [stLow] at hL ⊢
          rcases hL with rfl | hge
          · exact Or.inl rfl
          · by_cases hxi : x = i
            · exfalso
              unfold EmittedRange at hE
              obtain ⟨-, -, -, hxleft, -, -⟩ := hE
              rcases hxleft with h0 | hmf2
              · omega
              · rw [hxi] at hmf2
                rw [hall (i - 1) (by omega) (by omega)] at hmf2
                exact Bool.noConfusion hmf2
            · right; omega
    · -- a non-matching line closes the block
      have hmf : matchesYamlLine line = false := Bool.eq_false_iff.mpr hm
      have hmi : lineMatches lines i = false := by rw [hline]; exact hmf
      have hinvN : stInv lines none (i + 1) := by
        dsimp only [stInv]
        right
        simpa using hmi
      have hIH := ih (i + 1) none hr (by omega) hinvN x y
      have hxne : EmittedRange lines x y → x ≠ i := by
        intro hE hxi
        unfold EmittedRange at hE
        obtain ⟨hxy, -, hallxy, -, -, -⟩ := hE
        have hmx := hallxy x le_rfl hxy
        rw [hxi, hmi] at hmx
        exact Bool.noConfusion hmx
      by_cases hsep : pyStrip line = "---"
      · -- separator: emit with min_lines = 1
        have hbranch : yamlScanGo lines i st (line :: rest)
            = emitBlock lines st (i - 1) 1
              ++ yamlScanGo lines (i + 1) none rest := by
          simp [yamlScanGo, hmf, hsep]
        rw [hbranch, List.mem_append, hIH]
        cases st with
        | none =>
          simp only [emitBlock, List.not_mem_nil, false_or]
          constructor
          · rintro ⟨hE, hL⟩
            refine ⟨hE, ?_⟩
            dsimp only [stLow] at hL ⊢
            omega
          · rintro ⟨hE, hL⟩
            refine ⟨hE, ?_⟩
            dsimp only [stLow] at hL ⊢
            have := hxne hE
            omega
        | some sc =>
          obtain ⟨s, c⟩ := sc
          dsimp only [stInv] at hinv
          obtain ⟨hsum, hc1, hall, hleft⟩ := hinv
          have hse : s ≤ i - 1 := by omega
          have hilen : i - 1 < lines.length := by omega
          have hms : lineMatches lines s = true := hall s le_rfl (by omega)
          have hemit := blockEmittable_of_matches hse hilen hms
          have hemitEq : emitBlock lines (some (s, c)) (i - 1) 1
              = [(s, i - 1)] := by
            simp [emitBlock, hemit, hc1]
          rw [hemitEq]
          simp only [List.mem_singleton, Prod.mk.injEq]
          have hEmitHead : EmittedRange lines s (i - 1) := by
            unfold EmittedRange
            refine ⟨hse, hilen, ?_, hleft, ?_, ?_⟩
            · intro j hj1 hj2; exact hall j hj1 (by omega)
            · right
              rw [show i - 1 + 1 = i from by omega]
              exact hmi
            · right; right
              rw [show i - 1 + 1 = i from by omega]
              rw [List.getD_eq_getElem lines "" hi, ← hl]
              exact hsep
          constructor
          · rintro (⟨rfl, rfl⟩ | ⟨hE, hL⟩)
            · exact ⟨hEmitHead, Or.inl rfl⟩
            · refine ⟨hE, ?_⟩
              dsimp only [stLow] at hL ⊢
              right; omega
          · rintro ⟨hE, hL⟩
            dsimp only [stLow] at hL
            rcases hL with rfl | hge
            · exact Or.inl
                ⟨rfl, run_end_eq hsum hc1 hall hilen (Or.inr hmi) hE⟩
            · right
              refine ⟨hE, ?_⟩
              dsimp only [stLow]
              have := hxne hE
              omega
      · -- plain non-matching line: emit with min_lines = 2
        have hsep2 : pyStrip line ≠ "---" := hsep
        have hbranch : yamlScanGo lines i st (line :: rest)
            = emitBlock lines st (i - 1) 2
              ++ yamlScanGo lines (i + 1) none rest := by
          simp [yamlScanGo, hmf, hsep2]
        rw [hbranch, List.mem_append, hIH]
        cases st with
        | none =>
          simp only [emitBlock, List.not_mem_nil, false_or]
          constructor
          · rintro ⟨hE, hL⟩
            refine ⟨hE, ?_⟩
            dsimp only [stLow] at hL ⊢
            omega
          · rintro ⟨hE, hL⟩
            refine ⟨hE, ?_⟩
            dsimp only [stLow] at hL ⊢
            have := hxne hE
            omega
        | some sc =>
          obtain ⟨s, c⟩ := sc
          dsimp only [stInv] at hinv
          obtain ⟨hsum, hc1, hall, hleft⟩ := hinv
          have hse : s ≤ i - 1 := by omega
          have hilen : i - 1 < lines.length := by omega
          have hms : lineMatches lines s = true := hall s le_rfl (by omega)
          have hemit := blockEmittable_of_matches hse hilen hms
          have hsepF : pyStrip (lines.getD i "") ≠ "---" := by
            rw [List.getD_eq_getElem lines "" hi, ← hl]
            exact hsep2
          by_cases hc2 : 2 ≤ c
          · have hemitEq : emitBlock lines (some (s, c)) (i - 1) 2
                = [(s, i - 1)] := by
              simp [emitBlock, hemit, hc2]
            rw [hemitEq]
            simp only [List.mem_singleton, Prod.mk.injEq]
            have hEmitHead : EmittedRange lines s (i - 1) := by
              unfold EmittedRange
              refine ⟨hse, hilen, ?_, hleft, ?_, ?_⟩
              · intro j hj1 hj2; exact hall j hj1 (by omega)
              · right
                rw [show i - 1 + 1 = i from by omega]
                exact hmi
              · left; omega
            constructor
            · rintro (⟨rfl, rfl⟩ | ⟨hE, hL⟩)
              · exact ⟨hEmitHead, Or.inl rfl⟩
              · refine ⟨hE, ?_⟩
                dsimp only [stLow] at hL ⊢
                right; omega
            · rintro ⟨hE, hL⟩
              dsimp only [stLow] at hL
              rcases hL with rfl | hge
              · exact Or.inl
                  ⟨rfl, run_end_eq hsum hc1 hall hilen (Or.inr hmi) hE⟩
              · right
                refine ⟨hE, ?_⟩
                dsimp only [stLow]
                have := hxne hE
                omega
          · -- a single-line block before a plain line is dropped
            have hemitEq : emitBlock lines (some (s, c)) (i - 1) 2 = [] := by
              simp [emitBlock, hc2]
            rw [hemitEq]
            simp only [List.not_mem_nil, false_or]
            constructor
            · rintro ⟨hE, hL⟩
              refine ⟨hE, ?_⟩
              dsimp only [stLow] at hL ⊢
              right; omega
            · rintro ⟨hE, hL⟩
              dsimp only [stLow] at hL
              rcases hL with rfl | hge
              · exfalso
                have hy := run_end_eq hsum hc1 hall hilen (Or.inr hmi) hE
                unfold EmittedRange at hE
                obtain ⟨-, -, -, -, -, hcount⟩ := hE
                rcases hcount with hlt | hlen2 | hsep3
                · omega
                · omega
                · rw [hy, show i - 1 + 1 = i from by omega] at hsep3
                  exact hsepF hsep3
              · refine ⟨hE, ?_⟩
                dsimp only [stLow]
                have := hxne hE
                omega

/-- Claim C8: the YAML scan of `find_islands` emits a line range if and
only if it is a maximal run of consecutive lines matching the YAML line
patterns that either contains at least two matching lines (`s < e`) or
consists of a single matching line terminated by end of input or by a
`---` separator line (the disjunction inside `EmittedRange`). -/
theorem c8_yaml_island_emission (content : String) (x y : ℕ) :
    (x, y) ∈ findYamlIslandRanges content
      ↔ EmittedRange (content.splitOn "\n") x y := by
  have h := yamlScanGo_mem_iff (content.splitOn "\n") (content.splitOn "\n")
    0 none rfl (Nat.zero_le _) (Or.inl rfl) x y
  simpa [findYamlIslandRanges, stLow] using h

end WarpContent
